import Mathlib

/-!
Verification of the address-correction core of the repository:
the reranking matcher (`address_correction/matcher.py`) and the
text vectorizer (`address_correction/vectorizer.py`).

Numeric values are modelled with exact rationals; the external
collaborators (the pgvector store, scikit-learn and rapidfuzz) are
modelled at their documented contracts, as noted at each definition.
-/

namespace AddressCorrection

/-! ## Lexical similarity (model of `rapidfuzz.fuzz.ratio`)

`fuzz.ratio(s1, s2)` is the normalized indel similarity scaled to 0..100:
`100 * 2 * lcs(s1, s2) / (len s1 + len s2)`, and `100` when both strings
are empty.  The indel (insert/delete) edit distance satisfies
`dist = len s1 + len s2 - 2 * lcs`.
-/

/-- Length of a longest common subsequence of two character lists. -/
def lcsLen : List Char → List Char → Nat
  | [], _ => 0
  | _ :: _, [] => 0
  | a :: as, b :: bs =>
    if a = b then lcsLen as bs + 1
    else max (lcsLen (a :: as) bs) (lcsLen as (b :: bs))
  termination_by a b => a.length + b.length

/-- Indel edit distance (insertions and deletions only). -/
def indelDist (a b : List Char) : Nat :=
  a.length + b.length - 2 * lcsLen a b

/-- Model of `rapidfuzz.fuzz.ratio`: normalized indel similarity on the
0..100 scale, with `100` for two empty strings. -/
def fuzzRatio (s t : String) : ℚ :=
  if s.length + t.length = 0 then 100
  else 100 * (2 * lcsLen s.data t.data : ℚ) / ((s.length + t.length : Nat) : ℚ)

/-- The lexical similarity the matcher uses on both the vendor and the
address terms: `fuzz.ratio` of the lowercased strings, divided by 100. -/
def lexicalSimilarity (a b : String) : ℚ :=
  fuzzRatio a.toLower b.toLower / 100

/-! ## Matcher data model (`matcher.py`) -/

/-- One row returned by `db.search_similar`: a reference record plus the
cosine similarity reported by the store.  `similarity` is optional because
the row is a dict and `_score` reads it with `.get("similarity", 0.0)`. -/
structure Candidate where
  vendor_name : String
  address : String
  city : Option String
  postcode : Option String
  country : Option String
  similarity : Option ℚ

/-- `CorrectionResult` dataclass. -/
structure CorrectionResult where
  original_vendor : String
  original_address : String
  corrected_address : Option String
  corrected_city : Option String
  corrected_postcode : Option String
  corrected_country : Option String
  confidence : ℚ
  matched : Bool

/-- The configuration fields of `AddressMatcher.__init__` (the vectorizer
and the connection are the external collaborators and are modelled by
passing the retrieved candidate list to `correct` directly). -/
structure AddressMatcher where
  top_k : Nat := 20
  confidence_threshold : ℚ := 45 / 100
  vendor_weight : ℚ := 1 / 2
  address_weight : ℚ := 3 / 10
  embedding_weight : ℚ := 1 / 5

namespace AddressMatcher

/-- `AddressMatcher._score`: fused score of one candidate
(`vendor_sim`, `address_sim` and `embedding_sim` inlined). -/
def score (m : AddressMatcher) (vendor_name address : String)
    (candidate : Candidate) : ℚ :=
  m.vendor_weight * (fuzzRatio vendor_name.toLower candidate.vendor_name.toLower / 100)
    + m.address_weight * (fuzzRatio address.toLower candidate.address.toLower / 100)
    + m.embedding_weight * max 0 (candidate.similarity.getD 0)

/-- `AddressMatcher._no_match`. -/
def no_match (vendor_name address : String) : CorrectionResult where
  original_vendor := vendor_name
  original_address := address
  corrected_address := none
  corrected_city := none
  corrected_postcode := none
  corrected_country := none
  confidence := 0
  matched := false

/-- One step of the rerank loop body of `AddressMatcher.correct`:
`if score > best_score: best_score, best = score, cand`. -/
def step (f : Candidate → ℚ) (acc : Option Candidate × ℚ)
    (cand : Candidate) : Option Candidate × ℚ :=
  if acc.2 < f cand then (some cand, f cand) else acc

/-- The rerank loop of `AddressMatcher.correct`: fold over the candidates
starting from `best, best_score = None, -1.0`. -/
def rerank (f : Candidate → ℚ) (candidates : List Candidate) :
    Option Candidate × ℚ :=
  candidates.foldl (step f) (none, -1)

/-- `AddressMatcher.correct`.  The `candidates` argument is the list the
external store returned from `db.search_similar` for the query embedding,
in descending-similarity rank order. -/
def correct (m : AddressMatcher) (vendor_name address : String)
    (candidates : List Candidate) : CorrectionResult :=
  if candidates.isEmpty then no_match vendor_name address
  else
    let r := rerank (m.score vendor_name address) candidates
    match r.1 with
    | none => no_match vendor_name address
    | some best =>
      if r.2 < m.confidence_threshold then no_match vendor_name address
      else
        { original_vendor := vendor_name
          original_address := address
          corrected_address := some best.address
          corrected_city := best.city
          corrected_postcode := best.postcode
          corrected_country := best.country
          confidence := r.2
          matched := true }

/-- The greatest fused score over a nonempty candidate list (the value
the spec calls the best fused score). -/
def bestFused (f : Candidate → ℚ) : List Candidate → ℚ
  | [] => 0
  | c :: rest => (rest.map f).foldl max (f c)

/-- The reference selection function: scan the list keeping the current
best, replacing it only on a strict improvement. -/
def pickBest (f : Candidate → ℚ) (b : Candidate) : List Candidate → Candidate
  | [] => b
  | c :: l => if f b < f c then pickBest f c l else pickBest f b l

end AddressMatcher

/-! ## Vectorizer data model (`vectorizer.py`)

The scikit-learn objects are external collaborators.  Their fitted states
are modelled at the level the source uses them: a fitted
`TfidfVectorizer` maps a prepared text to its weighted sparse row over a
vocabulary of `vocabSize` features, and a fitted `TruncatedSVD` is its
components matrix, whose row count is the number of output components.
The two library fit calls performed inside `AddressVectorizer.fit` are
passed in as explicit functions, and the theorems quantify over every
behaviour satisfying the documented library contracts. -/

/-- A fitted `sklearn.feature_extraction.text.TfidfVectorizer`:
its configuration and the map from one prepared text to its weighted
row over the learned vocabulary. -/
structure TfidfFitted where
  ngram_range : Nat × Nat
  vocabSize : Nat
  rowOf : String → List ℚ

/-- A fitted `sklearn.decomposition.TruncatedSVD`: its components
matrix (one row per output component). -/
structure SVDFitted where
  components : List (List ℚ)

/-- `TruncatedSVD.n_components` equals the row count of the components
matrix for every fitted SVD. -/
def SVDFitted.n_components (s : SVDFitted) : Nat := s.components.length

/-- The pair of fitted library objects an `AddressVectorizer` holds after
`fit` (the pair that `save` dumps and `load` restores). -/
structure FittedState where
  tfidf : TfidfFitted
  svd : SVDFitted

/-- Error kinds of the vectorizer: `unfitted` models the
`RuntimeError("Vectorizer must be fitted ...")` raises, and
`emptyTrainingSet` models the `ValueError` scikit-learn raises from
`tfidf.fit_transform` when the corpus has zero documents. -/
inductive VecError where
  | unfitted
  | emptyTrainingSet
deriving DecidableEq

/-- `AddressVectorizer`: configuration plus the fitted state; `fitted`
is `none` before `fit` (the code couples `_is_fitted` with the presence
of the fitted `tfidf`/`svd` pair). -/
structure AddressVectorizer where
  n_components : Nat
  ngram_range : Nat × Nat
  fitted : Option FittedState

namespace AddressVectorizer

/-- `AddressVectorizer.__init__` with its defaults. -/
def init (n_components : Nat := 256) (ngram_range : Nat × Nat := (3, 5)) :
    AddressVectorizer :=
  { n_components := n_components, ngram_range := ngram_range, fitted := none }

/-- `AddressVectorizer._prepare_text`. -/
def prepare_text (vendor_name address : String) : String :=
  (vendor_name ++ " " ++ address).toLower

/-- `AddressVectorizer.dimensions` property. -/
def dimensions (v : AddressVectorizer) : Except VecError Nat :=
  match v.fitted with
  | none => .error .unfitted
  | some f => .ok f.svd.n_components

/-- Dot product of two rows. -/
def dotProd (a b : List ℚ) : ℚ :=
  (a.zip b).foldl (fun s p => s + p.1 * p.2) 0

/-- `TruncatedSVD.transform` on one sparse row: one dot product per
component row. -/
def svdTransformRow (components : List (List ℚ)) (x : List ℚ) : List ℚ :=
  components.map (fun row => dotProd row x)

/-- `AddressVectorizer.fit`.  `tfidfFit` models
`self.tfidf.fit_transform(texts)` and `svdFit k` models
`TruncatedSVD(n_components=k, random_state=42).fit(tfidf_matrix)`;
the clamping of the component count is the logic of the source. -/
def fit (v : AddressVectorizer) (vendor_names addresses : List String)
    (tfidfFit : List String → TfidfFitted) (svdFit : Nat → SVDFitted) :
    Except VecError AddressVectorizer :=
  let texts := (vendor_names.zip addresses).map fun p => prepare_text p.1 p.2
  if texts.isEmpty then .error .emptyTrainingSet
  else
    let tf := tfidfFit texts
    let max_components := min texts.length tf.vocabSize - 1
    let actual_components := min v.n_components (max 1 max_components)
    .ok { v with fitted := some ⟨tf, svdFit actual_components⟩ }

/-- The clamp `fit` applies to the number of SVD components:
`actual_components = min(n_components, max(1, min(rows, vocab_size) - 1))`
(in the source, `max_components = min(shape0, shape1) - 1`). -/
def clampComponents (n_components rows vocabSize : Nat) : Nat :=
  min n_components (max 1 (min rows vocabSize - 1))

/-- `AddressVectorizer.transform`. -/
def transform (v : AddressVectorizer) (vendor_names addresses : List String) :
    Except VecError (List (List ℚ)) :=
  match v.fitted with
  | none => .error .unfitted
  | some f =>
    .ok (((vendor_names.zip addresses).map fun p => prepare_text p.1 p.2).map
      fun t => svdTransformRow f.svd.components (f.tfidf.rowOf t))

/-- `AddressVectorizer.save`: dumps the tfidf and svd blobs; an unfitted
vectorizer has no fitted payload to dump. -/
def save (v : AddressVectorizer) : Option FittedState := v.fitted

/-- `AddressVectorizer.load`: restores the two blobs and reads
`ngram_range` and `n_components` back from them (joblib round-trips a
dumped object to an equal object, so the blob pair is the fitted state
itself). -/
def load (blob : FittedState) : AddressVectorizer :=
  { n_components := blob.svd.n_components
    ngram_range := blob.tfidf.ngram_range
    fitted := some blob }

end AddressVectorizer

/-! ## Concrete instances used by the witness theorems -/

/-- A matcher with the constructor defaults. -/
def demoMatcher : AddressMatcher := {}

/-- One concrete retrieved candidate row. -/
def demoCandidate : Candidate :=
  ⟨"apple store", "189 the grove dr", some "los angeles", some "90036",
    some "us", some (9 / 10)⟩

/-- A concrete fitted-tfidf behaviour: three features, constant rows. -/
def demoTfidfFit : List String → TfidfFitted :=
  fun _ => ⟨(3, 5), 3, fun _ => [1, 0, 0]⟩

/-- A concrete SVD-fit behaviour obeying the library contract that the
components matrix has exactly the requested number of rows. -/
def demoSvdFit : Nat → SVDFitted :=
  fun k => ⟨List.replicate k [1, 0, 0]⟩

/-- A concrete fitted state. -/
def demoFittedState : FittedState := ⟨⟨(3, 5), 2, fun _ => [1, 0]⟩, ⟨[[1, 0]]⟩⟩

/-- A concrete fitted vectorizer. -/
def demoVectorizer : AddressVectorizer := ⟨256, (3, 5), some demoFittedState⟩

/-- The vectorizer obtained by fitting a requested dimensionality of 5 on
two documents with three tfidf features (so the clamp yields 1). -/
def demoFitVec : AddressVectorizer := ⟨5, (3, 5), some ⟨demoTfidfFit [], demoSvdFit 1⟩⟩

/-- A vectorizer asking for one component, fitted on a single document:
the rank bound `min(rows, vocab) - 1` is 0, yet the fitted dimensionality
is 1, not smaller than the requested 1. -/
def cexFitResult : Except VecError AddressVectorizer :=
  AddressVectorizer.fit (AddressVectorizer.init 1 (3, 5)) ["a"] ["1 main"]
    demoTfidfFit demoSvdFit

/-! ## Lemmas about the lexical similarity -/

theorem string_length_data (s : String) : s.length = s.data.length := rfl

theorem lcsLen_le_left : ∀ a b : List Char, lcsLen a b ≤ a.length := by
  intro a
  induction a with
  | nil => intro b; cases b <;> simp [lcsLen]
  | cons x xs ihx =>
    intro b
    induction b with
    | nil => simp [lcsLen]
    | cons y ys ihy =>
      by_cases h : x = y
      · simp only [lcsLen, if_pos h, List.length_cons]
        have := ihx ys
        omega
      · simp only [lcsLen, if_neg h, List.length_cons] at ihy ⊢
        have := ihx (y :: ys)
        omega

theorem lcsLen_le_right : ∀ a b : List Char, lcsLen a b ≤ b.length := by
  intro a
  induction a with
  | nil => intro b; cases b <;> simp [lcsLen]
  | cons x xs ihx =>
    intro b
    induction b with
    | nil => simp [lcsLen]
    | cons y ys ihy =>
      by_cases h : x = y
      · simp only [lcsLen, if_pos h, List.length_cons]
        have := ihx ys
        omega
      · simp only [lcsLen, if_neg h, List.length_cons]
        exact max_le (ihy.trans (Nat.le_succ _)) (by simpa using ihx (y :: ys))

theorem two_lcsLen_le (a b : List Char) :
    2 * lcsLen a b ≤ a.length + b.length := by
  have h1 := lcsLen_le_left a b
  have h2 := lcsLen_le_right a b
  omega

theorem lcsLen_self : ∀ a : List Char, lcsLen a a = a.length := by
  intro a
  induction a with
  | nil => simp [lcsLen]
  | cons x xs ih => simp [lcsLen, ih]

theorem fuzzRatio_nonneg (s t : String) : 0 ≤ fuzzRatio s t := by
  unfold fuzzRatio
  split
  · norm_num
  · positivity

theorem fuzzRatio_le_100 (s t : String) : fuzzRatio s t ≤ 100 := by
  unfold fuzzRatio
  split
  · norm_num
  · rename_i h
    rw [mul_div_assoc]
    have hn : (0 : ℚ) < ((s.length + t.length : Nat) : ℚ) := by
      exact_mod_cast Nat.pos_of_ne_zero h
    have hle := two_lcsLen_le s.data t.data
    have hfrac : (2 * (lcsLen s.data t.data : ℚ)) /
        ((s.length + t.length : Nat) : ℚ) ≤ 1 := by
      rw [div_le_one hn, string_length_data s, string_length_data t]
      exact_mod_cast hle
    nlinarith

theorem fuzzRatio_self (s : String) : fuzzRatio s s = 100 := by
  unfold fuzzRatio
  split
  · rfl
  · rename_i h
    have hq : ((s.length : ℚ)) ≠ 0 := by
      exact_mod_cast (by omega : s.length ≠ 0)
    rw [lcsLen_self]
    have hd : ((s.data.length : Nat) : ℚ) = (s.length : ℚ) := by
      rw [string_length_data]
    rw [hd]
    push_cast
    field_simp
    ring

theorem lexicalSimilarity_nonneg (a b : String) : 0 ≤ lexicalSimilarity a b := by
  unfold lexicalSimilarity
  have := fuzzRatio_nonneg a.toLower b.toLower
  positivity

theorem lexicalSimilarity_le_one (a b : String) : lexicalSimilarity a b ≤ 1 := by
  unfold lexicalSimilarity
  have := fuzzRatio_le_100 a.toLower b.toLower
  linarith

theorem lexicalSimilarity_self (a : String) : lexicalSimilarity a a = 1 := by
  unfold lexicalSimilarity
  rw [fuzzRatio_self]
  norm_num

/-- The similarity is the normalized indel edit-distance ratio
`1 - dist / (len + len)` on the lowercased strings. -/
theorem lexicalSimilarity_eq_editRatio (a b : String) :
    lexicalSimilarity a b =
      if a.toLower.length + b.toLower.length = 0 then 1
      else 1 - (indelDist a.toLower.data b.toLower.data : ℚ) /
        ((a.toLower.length + b.toLower.length : Nat) : ℚ) := by
  unfold lexicalSimilarity fuzzRatio indelDist
  by_cases h : a.toLower.length + b.toLower.length = 0
  · simp only [if_pos h]
    norm_num
  · simp only [if_neg h]
    have hsub := two_lcsLen_le a.toLower.data b.toLower.data
    rw [Nat.cast_sub hsub]
    have hne : ((a.toLower.length : ℚ) + (b.toLower.length : ℚ)) ≠ 0 := by
      exact_mod_cast h
    push_cast
    have e1 : ((a.toLower.data.length : Nat) : ℚ) = (a.toLower.length : ℚ) := rfl
    have e2 : ((b.toLower.data.length : Nat) : ℚ) = (b.toLower.length : ℚ) := rfl
    rw [e1, e2]
    field_simp
    ring

/-! ## Lemmas about the rerank fold -/

namespace AddressMatcher

theorem foldl_step_snd (f : Candidate → ℚ) :
    ∀ (l : List Candidate) (b : Option Candidate) (s : ℚ),
      (l.foldl (step f) (b, s)).2 = (l.map f).foldl max s := by
  intro l
  induction l with
  | nil => intro b s; rfl
  | cons c l ih =>
    intro b s
    have hstep : step f (b, s) c = if s < f c then (some c, f c) else (b, s) := rfl
    simp only [List.foldl_cons, List.map_cons, hstep]
    split_ifs with h
    · rw [ih, max_eq_right h.le]
    · rw [ih, max_eq_left (not_lt.mp h)]

theorem foldl_step_some_isSome (f : Candidate → ℚ) :
    ∀ (l : List Candidate) (b : Candidate) (s : ℚ),
      ((l.foldl (step f) (some b, s)).1).isSome := by
  intro l
  induction l with
  | nil => intro b s; rfl
  | cons c l ih =>
    intro b s
    have hstep : step f (some b, s) c =
        if s < f c then (some c, f c) else (some b, s) := rfl
    simp only [List.foldl_cons, hstep]
    split_ifs with h
    · exact ih c (f c)
    · exact ih b s

theorem foldl_step_none_snd (f : Candidate → ℚ) :
    ∀ (l : List Candidate) (s : ℚ),
      (l.foldl (step f) (none, s)).1 = none →
      (l.foldl (step f) (none, s)).2 = s := by
  intro l
  induction l with
  | nil => intro s _; rfl
  | cons c l ih =>
    intro s h
    have hstep : step f (none, s) c =
        if s < f c then (some c, f c) else (none, s) := rfl
    by_cases hc : s < f c
    · exfalso
      simp only [List.foldl_cons, hstep, if_pos hc] at h
      have := foldl_step_some_isSome f l c (f c)
      rw [h] at this
      simp at this
    · simp only [List.foldl_cons, hstep, if_neg hc] at h ⊢
      exact ih s h

theorem le_foldl_max :
    ∀ (l : List ℚ) (s b : ℚ), b ≤ l.foldl max s ↔ b ≤ s ∨ ∃ x ∈ l, b ≤ x := by
  intro l
  induction l with
  | nil => intro s b; simp
  | cons a l ih =>
    intro s b
    simp only [List.foldl_cons, List.mem_cons]
    rw [ih, le_max_iff]
    aesop

theorem foldl_max_le :
    ∀ (l : List ℚ) (s b : ℚ), s ≤ b → (∀ x ∈ l, x ≤ b) → l.foldl max s ≤ b := by
  intro l
  induction l with
  | nil => intro s b hs _; exact hs
  | cons a l ih =>
    intro s b hs hx
    simp only [List.foldl_cons]
    exact ih _ _ (max_le hs (hx a (List.mem_cons_self a l)))
      fun x hm => hx x (List.mem_cons_of_mem _ hm)

theorem le_pickBest (f : Candidate → ℚ) :
    ∀ (l : List Candidate) (b : Candidate), f b ≤ f (pickBest f b l) := by
  intro l
  induction l with
  | nil => intro b; exact le_refl _
  | cons c l ih =>
    intro b
    by_cases h : f b < f c
    · simp only [pickBest, if_pos h]
      exact le_of_lt (lt_of_lt_of_le h (ih c))
    · simp only [pickBest, if_neg h]
      exact ih b

theorem foldl_step_pickBest (f : Candidate → ℚ) :
    ∀ (l : List Candidate) (b : Candidate),
      l.foldl (step f) (some b, f b) =
        (some (pickBest f b l), f (pickBest f b l)) := by
  intro l
  induction l with
  | nil => intro b; rfl
  | cons c l ih =>
    intro b
    have hstep : step f (some b, f b) c =
        if f b < f c then (some c, f c) else (some b, f b) := rfl
    simp only [List.foldl_cons, hstep, pickBest]
    split_ifs with h
    · exact ih c
    · exact ih b

theorem pickBest_decomp (f : Candidate → ℚ) :
    ∀ (l : List Candidate) (b : Candidate),
      ∃ pre post, b :: l = pre ++ pickBest f b l :: post ∧
        (∀ x ∈ pre, f x < f (pickBest f b l)) ∧
        (∀ x ∈ post, f x ≤ f (pickBest f b l)) := by
  intro l
  induction l with
  | nil => intro b; exact ⟨[], [], rfl, by simp, by simp⟩
  | cons c l ih =>
    intro b
    by_cases h : f b < f c
    · simp only [pickBest, if_pos h]
      obtain ⟨pre, post, heq, hpre, hpost⟩ := ih c
      refine ⟨b :: pre, post, ?_, ?_, hpost⟩
      · rw [List.cons_append, ← heq]
      · intro x hx
        rcases List.mem_cons.mp hx with rfl | hx
        · exact lt_of_lt_of_le h (le_pickBest f l c)
        · exact hpre x hx
    · simp only [pickBest, if_neg h]
      obtain ⟨pre, post, heq, hpre, hpost⟩ := ih b
      cases pre with
      | nil =>
        simp only [List.nil_append] at heq
        injection heq with h1 h2
        refine ⟨[], c :: l, ?_, by simp, ?_⟩
        · rw [List.nil_append, ← h1]
        · intro x hx
          rcases List.mem_cons.mp hx with rfl | hx
          · exact le_trans (not_lt.mp h) (le_pickBest f l b)
          · exact hpost x (h2 ▸ hx)
      | cons p pre2 =>
        simp only [List.cons_append] at heq
        injection heq with h1 h2
        have hbp : f p < f (pickBest f b l) := hpre p (List.mem_cons_self _ _)
        rw [← h1] at hbp
        refine ⟨b :: c :: pre2, post, ?_, ?_, hpost⟩
        · simp only [List.cons_append]
          rw [← h2]
        · intro x hx
          rcases List.mem_cons.mp hx with rfl | hx
          · exact hbp
          rcases List.mem_cons.mp hx with rfl | hx
          · exact lt_of_le_of_lt (not_lt.mp h) hbp
          · exact hpre x (List.mem_cons_of_mem _ hx)

theorem rerank_snd (f : Candidate → ℚ) (l : List Candidate) :
    (rerank f l).2 = (l.map f).foldl max (-1) :=
  foldl_step_snd f l none (-1)

theorem rerank_none_snd (f : Candidate → ℚ) (l : List Candidate)
    (h : (rerank f l).1 = none) : (rerank f l).2 = -1 :=
  foldl_step_none_snd f l (-1) h

theorem score_nonneg (m : AddressMatcher) (v a : String) (c : Candidate)
    (hv : 0 ≤ m.vendor_weight) (ha : 0 ≤ m.address_weight)
    (he : 0 ≤ m.embedding_weight) : 0 ≤ m.score v a c := by
  unfold score
  have h1 := fuzzRatio_nonneg v.toLower c.vendor_name.toLower
  have h2 := fuzzRatio_nonneg a.toLower c.address.toLower
  have h3 : (0 : ℚ) ≤ max 0 (c.similarity.getD 0) := le_max_left 0 _
  have t1 : 0 ≤ m.vendor_weight * (fuzzRatio v.toLower c.vendor_name.toLower / 100) :=
    mul_nonneg hv (div_nonneg h1 (by norm_num))
  have t2 : 0 ≤ m.address_weight * (fuzzRatio a.toLower c.address.toLower / 100) :=
    mul_nonneg ha (div_nonneg h2 (by norm_num))
  have t3 : 0 ≤ m.embedding_weight * max 0 (c.similarity.getD 0) :=
    mul_nonneg he h3
  linarith

theorem score_le_one (m : AddressMatcher) (v a : String) (c : Candidate)
    (hv : 0 ≤ m.vendor_weight) (ha : 0 ≤ m.address_weight)
    (he : 0 ≤ m.embedding_weight)
    (hsum : m.vendor_weight + m.address_weight + m.embedding_weight ≤ 1)
    (hsim : c.similarity.getD 0 ≤ 1) : m.score v a c ≤ 1 := by
  unfold score
  have h1 : fuzzRatio v.toLower c.vendor_name.toLower / 100 ≤ 1 := by
    have := fuzzRatio_le_100 v.toLower c.vendor_name.toLower
    linarith
  have h2 : fuzzRatio a.toLower c.address.toLower / 100 ≤ 1 := by
    have := fuzzRatio_le_100 a.toLower c.address.toLower
    linarith
  have h3 : max 0 (c.similarity.getD 0) ≤ 1 := max_le (by norm_num) hsim
  have t1 : m.vendor_weight * (fuzzRatio v.toLower c.vendor_name.toLower / 100) ≤
      m.vendor_weight * 1 := by
    apply mul_le_mul_of_nonneg_left h1 hv
  have t2 : m.address_weight * (fuzzRatio a.toLower c.address.toLower / 100) ≤
      m.address_weight * 1 := by
    apply mul_le_mul_of_nonneg_left h2 ha
  have t3 : m.embedding_weight * max 0 (c.similarity.getD 0) ≤
      m.embedding_weight * 1 := by
    apply mul_le_mul_of_nonneg_left h3 he
  nlinarith

/-- `correct` on a nonempty candidate list, unfolded past the emptiness
test. -/
theorem correct_cons (m : AddressMatcher) (v a : String) (c : Candidate)
    (rest : List Candidate) :
    m.correct v a (c :: rest) =
      match (rerank (m.score v a) (c :: rest)).1 with
      | none => no_match v a
      | some best =>
        if (rerank (m.score v a) (c :: rest)).2 < m.confidence_threshold
        then no_match v a
        else
          { original_vendor := v
            original_address := a
            corrected_address := some best.address
            corrected_city := best.city
            corrected_postcode := best.postcode
            corrected_country := best.country
            confidence := (rerank (m.score v a) (c :: rest)).2
            matched := true } := rfl

/-- Passing the confidence gate on the fold value and passing it on the
greatest fused score agree, for a non-negative threshold. -/
theorem gate_iff (m : AddressMatcher) (v a : String) (c : Candidate)
    (rest : List Candidate) (hth : 0 ≤ m.confidence_threshold) :
    (m.confidence_threshold ≤ (rerank (m.score v a) (c :: rest)).2 ↔
      m.confidence_threshold ≤ bestFused (m.score v a) (c :: rest)) := by
  rw [rerank_snd]
  simp only [List.map_cons, List.foldl_cons, bestFused]
  rw [le_foldl_max, le_foldl_max, le_max_iff]
  have hne : ¬ m.confidence_threshold ≤ -1 := by linarith
  tauto

end AddressMatcher

/-! ## Claim theorems for the matcher -/

namespace AddressMatcher

/-- C1: for every correction request and candidate, the fused score is
`vendor_weight * lexical_similarity(query.vendor, cand.vendor)
 + address_weight * lexical_similarity(query.address, cand.address)
 + embedding_weight * max 0 (cand.embedding_similarity)`, where the
lexical similarity is a normalized edit-distance ratio in `[0, 1]` over
the lowercased strings with value 1 exactly on identical strings. -/
theorem score_weighted_fusion (m : AddressMatcher) (qv qa : String) (c : Candidate) :
    m.score qv qa c =
        m.vendor_weight * lexicalSimilarity qv c.vendor_name
      + m.address_weight * lexicalSimilarity qa c.address
      + m.embedding_weight * max 0 (c.similarity.getD 0) ∧
    (0 ≤ lexicalSimilarity qv c.vendor_name ∧ lexicalSimilarity qv c.vendor_name ≤ 1) ∧
    (0 ≤ lexicalSimilarity qa c.address ∧ lexicalSimilarity qa c.address ≤ 1) ∧
    lexicalSimilarity qv qv = 1 ∧
    lexicalSimilarity qv c.vendor_name =
      (if qv.toLower.length + c.vendor_name.toLower.length = 0 then 1
       else 1 - (indelDist qv.toLower.data c.vendor_name.toLower.data : ℚ) /
         ((qv.toLower.length + c.vendor_name.toLower.length : Nat) : ℚ)) ∧
    lexicalSimilarity qa c.address =
      (if qa.toLower.length + c.address.toLower.length = 0 then 1
       else 1 - (indelDist qa.toLower.data c.address.toLower.data : ℚ) /
         ((qa.toLower.length + c.address.toLower.length : Nat) : ℚ)) :=
  ⟨rfl,
   ⟨lexicalSimilarity_nonneg _ _, lexicalSimilarity_le_one _ _⟩,
   ⟨lexicalSimilarity_nonneg _ _, lexicalSimilarity_le_one _ _⟩,
   lexicalSimilarity_self qv,
   lexicalSimilarity_eq_editRatio qv c.vendor_name,
   lexicalSimilarity_eq_editRatio qa c.address⟩

/-- C10: a candidate whose record lacks a similarity entry is scored with
embedding similarity 0: only the two lexical terms contribute, the same
score as a candidate reporting similarity 0.0, and no error is raised. -/
theorem score_missing_similarity (m : AddressMatcher) (v a : String)
    (vendor address : String) (city postcode country : Option String) :
    m.score v a ⟨vendor, address, city, postcode, country, none⟩ =
        m.vendor_weight * (fuzzRatio v.toLower vendor.toLower / 100)
      + m.address_weight * (fuzzRatio a.toLower address.toLower / 100) ∧
    m.score v a ⟨vendor, address, city, postcode, country, none⟩ =
      m.score v a ⟨vendor, address, city, postcode, country, some 0⟩ := by
  constructor
  · unfold score
    simp
  · rfl

/-- C2: `matched` is true exactly when the store returned at least one
candidate and the greatest fused score passes the confidence threshold;
in every other case (including zero candidates) the result is the
no-match result: confidence 0, the original vendor and address, and all
four corrected fields absent. -/
theorem correct_matched_gate (m : AddressMatcher) (v a : String)
    (cands : List Candidate) (hth : 0 ≤ m.confidence_threshold) :
    ((m.correct v a cands).matched = true ↔
      cands ≠ [] ∧ m.confidence_threshold ≤ bestFused (m.score v a) cands) ∧
    ((m.correct v a cands).matched = false → m.correct v a cands = no_match v a) ∧
    m.correct v a [] = no_match v a ∧
    (no_match v a).matched = false ∧
    (no_match v a).confidence = 0 ∧
    (no_match v a).original_vendor = v ∧
    (no_match v a).original_address = a ∧
    (no_match v a).corrected_address = none ∧
    (no_match v a).corrected_city = none ∧
    (no_match v a).corrected_postcode = none ∧
    (no_match v a).corrected_country = none := by
  refine ⟨?_, ?_, rfl, rfl, rfl, rfl, rfl, rfl, rfl, rfl, rfl⟩
  · cases cands with
    | nil => simp [correct, no_match]
    | cons c rest =>
      rw [correct_cons]
      rcases hb : (rerank (m.score v a) (c :: rest)).1 with _ | best
      · have h2 := rerank_none_snd (m.score v a) (c :: rest) hb
        simp only [hb, no_match]
        constructor
        · intro hx; cases hx
        · rintro ⟨-, hle⟩
          have := (gate_iff m v a c rest hth).mpr hle
          rw [h2] at this
          linarith
      · by_cases hlt :
          (rerank (m.score v a) (c :: rest)).2 < m.confidence_threshold
        · simp only [hb, if_pos hlt, no_match]
          constructor
          · intro hx; cases hx
          · rintro ⟨-, hle⟩
            have := (gate_iff m v a c rest hth).mpr hle
            linarith
        · simp only [hb, if_neg hlt]
          constructor
          · intro _
            exact ⟨List.cons_ne_nil c rest,
              (gate_iff m v a c rest hth).mp (not_lt.mp hlt)⟩
          · intro _; trivial
  · cases cands with
    | nil => intro _; rfl
    | cons c rest =>
      rw [correct_cons]
      rcases hb : (rerank (m.score v a) (c :: rest)).1 with _ | best
      · simp only [hb]; intro _; trivial
      · by_cases hlt :
          (rerank (m.score v a) (c :: rest)).2 < m.confidence_threshold
        · simp only [hb, if_pos hlt]; intro _; trivial
        · simp only [hb, if_neg hlt]; intro hx; cases hx

/-- C4: on a nonempty candidate list, with the configured weights
non-negative, the rerank loop selects exactly the first candidate in the
store rank order attaining the greatest fused score: every earlier
candidate scores strictly lower and every later one scores no higher, so
selection is deterministic; when the winning score passes the gate,
`correct` returns that candidate. -/
theorem correct_selects_first_max (m : AddressMatcher) (v a : String)
    (c : Candidate) (rest : List Candidate)
    (hv : 0 ≤ m.vendor_weight) (ha : 0 ≤ m.address_weight)
    (he : 0 ≤ m.embedding_weight) :
    ∃ b pre post,
      (rerank (m.score v a) (c :: rest)).1 = some b ∧
      (rerank (m.score v a) (c :: rest)).2 = m.score v a b ∧
      c :: rest = pre ++ b :: post ∧
      (∀ x ∈ pre, m.score v a x < m.score v a b) ∧
      (∀ x ∈ post, m.score v a x ≤ m.score v a b) ∧
      (m.confidence_threshold ≤ m.score v a b →
        m.correct v a (c :: rest) =
          { original_vendor := v
            original_address := a
            corrected_address := some b.address
            corrected_city := b.city
            corrected_postcode := b.postcode
            corrected_country := b.country
            confidence := m.score v a b
            matched := true }) := by
  have h0 : 0 ≤ m.score v a c := score_nonneg m v a c hv ha he
  have hstep : step (m.score v a) (none, -1) c = (some c, m.score v a c) := by
    have hcond : ((none : Option Candidate), (-1 : ℚ)).2 < m.score v a c := by
      show (-1 : ℚ) < m.score v a c
      linarith
    unfold step
    rw [if_pos hcond]
  have hfirst : rerank (m.score v a) (c :: rest) =
      rest.foldl (step (m.score v a)) (some c, m.score v a c) := by
    unfold rerank
    rw [List.foldl_cons, hstep]
  refine ⟨pickBest (m.score v a) c rest, ?_⟩
  obtain ⟨pre, post, heq, hpre, hpost⟩ := pickBest_decomp (m.score v a) rest c
  refine ⟨pre, post, ?_, ?_, heq, hpre, hpost, ?_⟩
  · rw [hfirst, foldl_step_pickBest]
  · rw [hfirst, foldl_step_pickBest]
  · intro hgate
    rw [correct_cons, hfirst, foldl_step_pickBest]
    dsimp only
    rw [if_neg (not_lt.mpr hgate)]

/-- C9: with non-negative weights summing to at most 1 and every
store-reported similarity at most 1, the reported confidence lies in
`[0, 1]`, and on a match it equals the greatest fused score,
untransformed. -/
theorem correct_confidence_unit (m : AddressMatcher) (v a : String)
    (cands : List Candidate)
    (hv : 0 ≤ m.vendor_weight) (ha : 0 ≤ m.address_weight)
    (he : 0 ≤ m.embedding_weight)
    (hsum : m.vendor_weight + m.address_weight + m.embedding_weight ≤ 1)
    (hsim : ∀ c ∈ cands, c.similarity.getD 0 ≤ 1) :
    0 ≤ (m.correct v a cands).confidence ∧
    (m.correct v a cands).confidence ≤ 1 ∧
    ((m.correct v a cands).matched = true →
      (m.correct v a cands).confidence = bestFused (m.score v a) cands) := by
  cases cands with
  | nil =>
    refine ⟨le_refl 0, by norm_num [correct, no_match], ?_⟩
    intro hx
    cases hx
  | cons c rest =>
    have hr2 := rerank_snd (m.score v a) (c :: rest)
    have hnn : (0 : ℚ) ≤ m.score v a c := score_nonneg m v a c hv ha he
    have hfold_eq : ((c :: rest).map (m.score v a)).foldl max (-1) =
        bestFused (m.score v a) (c :: rest) := by
      simp only [List.map_cons, List.foldl_cons, bestFused]
      rw [max_eq_right (by linarith : (-1 : ℚ) ≤ m.score v a c)]
    have h0b : 0 ≤ bestFused (m.score v a) (c :: rest) := by
      simp only [bestFused]
      rw [le_foldl_max]
      exact Or.inl hnn
    have h1b : bestFused (m.score v a) (c :: rest) ≤ 1 := by
      simp only [bestFused]
      apply foldl_max_le
      · exact score_le_one m v a c hv ha he hsum (hsim c (List.mem_cons_self c rest))
      · intro x hx
        obtain ⟨y, hy, rfl⟩ := List.mem_map.mp hx
        exact score_le_one m v a y hv ha he hsum (hsim y (List.mem_cons_of_mem _ hy))
    have hconf : (rerank (m.score v a) (c :: rest)).2 =
        bestFused (m.score v a) (c :: rest) := by rw [hr2, hfold_eq]
    rw [correct_cons]
    rcases hb : (rerank (m.score v a) (c :: rest)).1 with _ | best
    · refine ⟨le_refl 0, by norm_num [no_match], ?_⟩
      intro hx
      cases hx
    · by_cases hlt :
        (rerank (m.score v a) (c :: rest)).2 < m.confidence_threshold
      · simp only [hb, if_pos hlt]
        refine ⟨le_refl 0, by norm_num [no_match], ?_⟩
        intro hx
        cases hx
      · simp only [hb, if_neg hlt]
        refine ⟨?_, ?_, fun _ => ?_⟩
        · show 0 ≤ (rerank (m.score v a) (c :: rest)).2
          rw [hconf]; exact h0b
        · show (rerank (m.score v a) (c :: rest)).2 ≤ 1
          rw [hconf]; exact h1b
        · show (rerank (m.score v a) (c :: rest)).2 =
            bestFused (m.score v a) (c :: rest)
          exact hconf

/-- Witness for C2 at the default configuration and one candidate. -/
theorem correct_matched_gate_witness :
    (0 : ℚ) ≤ demoMatcher.confidence_threshold ∧
    (((demoMatcher.correct "a" "b" [demoCandidate]).matched = true ↔
        [demoCandidate] ≠ [] ∧
          demoMatcher.confidence_threshold ≤
            bestFused (demoMatcher.score "a" "b") [demoCandidate]) ∧
      ((demoMatcher.correct "a" "b" [demoCandidate]).matched = false →
        demoMatcher.correct "a" "b" [demoCandidate] = no_match "a" "b") ∧
      demoMatcher.correct "a" "b" [] = no_match "a" "b" ∧
      (no_match "a" "b").matched = false ∧
      (no_match "a" "b").confidence = 0 ∧
      (no_match "a" "b").original_vendor = "a" ∧
      (no_match "a" "b").original_address = "b" ∧
      (no_match "a" "b").corrected_address = none ∧
      (no_match "a" "b").corrected_city = none ∧
      (no_match "a" "b").corrected_postcode = none ∧
      (no_match "a" "b").corrected_country = none) :=
  ⟨by norm_num [demoMatcher],
    correct_matched_gate demoMatcher "a" "b" [demoCandidate]
      (by norm_num [demoMatcher])⟩

/-- Witness for C4 at the default configuration and one candidate. -/
theorem correct_selects_first_max_witness :
    (0 : ℚ) ≤ demoMatcher.vendor_weight ∧
    (0 : ℚ) ≤ demoMatcher.address_weight ∧
    (0 : ℚ) ≤ demoMatcher.embedding_weight ∧
    (∃ b pre post,
      (rerank (demoMatcher.score "a" "b") (demoCandidate :: [])).1 = some b ∧
      (rerank (demoMatcher.score "a" "b") (demoCandidate :: [])).2 =
        demoMatcher.score "a" "b" b ∧
      demoCandidate :: [] = pre ++ b :: post ∧
      (∀ x ∈ pre, demoMatcher.score "a" "b" x < demoMatcher.score "a" "b" b) ∧
      (∀ x ∈ post, demoMatcher.score "a" "b" x ≤ demoMatcher.score "a" "b" b) ∧
      (demoMatcher.confidence_threshold ≤ demoMatcher.score "a" "b" b →
        demoMatcher.correct "a" "b" (demoCandidate :: []) =
          { original_vendor := "a"
            original_address := "b"
            corrected_address := some b.address
            corrected_city := b.city
            corrected_postcode := b.postcode
            corrected_country := b.country
            confidence := demoMatcher.score "a" "b" b
            matched := true })) :=
  ⟨by norm_num [demoMatcher], by norm_num [demoMatcher], by norm_num [demoMatcher],
    correct_selects_first_max demoMatcher "a" "b" demoCandidate []
      (by norm_num [demoMatcher]) (by norm_num [demoMatcher])
      (by norm_num [demoMatcher])⟩

/-- Witness for C9 at the default configuration and one candidate. -/
theorem correct_confidence_unit_witness :
    (0 : ℚ) ≤ demoMatcher.vendor_weight ∧
    (0 : ℚ) ≤ demoMatcher.address_weight ∧
    (0 : ℚ) ≤ demoMatcher.embedding_weight ∧
    demoMatcher.vendor_weight + demoMatcher.address_weight +
      demoMatcher.embedding_weight ≤ 1 ∧
    (∀ c ∈ [demoCandidate], c.similarity.getD 0 ≤ 1) ∧
    (0 ≤ (demoMatcher.correct "a" "b" [demoCandidate]).confidence ∧
      (demoMatcher.correct "a" "b" [demoCandidate]).confidence ≤ 1 ∧
      ((demoMatcher.correct "a" "b" [demoCandidate]).matched = true →
        (demoMatcher.correct "a" "b" [demoCandidate]).confidence =
          bestFused (demoMatcher.score "a" "b") [demoCandidate])) :=
  ⟨by norm_num [demoMatcher], by norm_num [demoMatcher], by norm_num [demoMatcher],
    by norm_num [demoMatcher], by norm_num [demoCandidate],
    correct_confidence_unit demoMatcher "a" "b" [demoCandidate]
      (by norm_num [demoMatcher]) (by norm_num [demoMatcher])
      (by norm_num [demoMatcher]) (by norm_num [demoMatcher])
      (by norm_num [demoCandidate])⟩

end AddressMatcher

/-! ## Claim theorems for the vectorizer -/

namespace AddressVectorizer

/-- C3 (amended): a successful `fit` yields the dimensionality
`min(requested, max(1, min(rows, vocab_size) - 1))`; it is at least 1 and
at most the requested value, it is strictly below the requested value
whenever the requested value exceeds `max(1, min(rows, vocab_size) - 1)`,
and every output embedding has exactly that length. -/
theorem fit_dimension_clamp (v : AddressVectorizer) (vns addrs : List String)
    (tfidfFit : List String → TfidfFitted) (svdFit : Nat → SVDFitted)
    (hsvd : ∀ k, (svdFit k).components.length = k)
    (hreq : 1 ≤ v.n_components)
    (w : AddressVectorizer) (texts : List String) (d : Nat)
    (hw : fit v vns addrs tfidfFit svdFit = .ok w)
    (htexts : texts = (vns.zip addrs).map fun p => prepare_text p.1 p.2)
    (hd : d = clampComponents v.n_components texts.length (tfidfFit texts).vocabSize) :
    dimensions w = .ok d ∧
    1 ≤ d ∧
    d ≤ v.n_components ∧
    d ≤ max 1 (min texts.length (tfidfFit texts).vocabSize - 1) ∧
    (max 1 (min texts.length (tfidfFit texts).vocabSize - 1) < v.n_components →
      d < v.n_components) ∧
    ∀ qvns qaddrs out, transform w qvns qaddrs = .ok out →
      ∀ e ∈ out, e.length = d := by
  have hw2 : (if texts.isEmpty then (.error .emptyTrainingSet : Except VecError AddressVectorizer)
      else .ok { v with fitted := some ⟨tfidfFit texts,
        svdFit (clampComponents v.n_components texts.length
          (tfidfFit texts).vocabSize)⟩ }) = .ok w := by
    rw [htexts]
    exact hw
  by_cases he : texts.isEmpty
  · rw [if_pos he] at hw2
    simp at hw2
  · rw [if_neg he] at hw2
    injection hw2 with hww
    subst hww
    subst hd
    refine ⟨?_, ?_, ?_, ?_, ?_, ?_⟩
    · simp [dimensions, SVDFitted.n_components, hsvd]
    · show 1 ≤ min v.n_components
        (max 1 (min texts.length (tfidfFit texts).vocabSize - 1))
      exact le_min hreq (le_max_left 1 _)
    · exact min_le_left _ _
    · exact min_le_right _ _
    · intro hlt
      show min v.n_components
          (max 1 (min texts.length (tfidfFit texts).vocabSize - 1)) <
        v.n_components
      rw [min_eq_right (le_of_lt hlt)]
      exact hlt
    · intro qvns qaddrs out hout e he2
      unfold transform at hout
      simp only at hout
      injection hout with hout2
      subst hout2
      obtain ⟨t, -, rfl⟩ := List.mem_map.mp he2
      unfold svdTransformRow
      rw [List.length_map, hsvd]

/-- Counterexample to C3 as stated: requesting one component and fitting
on a single document (three tfidf features), the rank bound
`min(rows, vocab) - 1 = 0` is exceeded by the request, yet the fitted
dimensionality is 1, which is not strictly less than the requested 1. -/
theorem fit_dimension_clamp_cex :
    (min 1 3 - 1 : Nat) < (init 1 (3, 5)).n_components ∧
    cexFitResult.bind dimensions = .ok 1 ∧
    ¬ ((1 : Nat) < (init 1 (3, 5)).n_components) :=
  ⟨by decide, rfl, by decide⟩

/-- Witness for C3 (amended): requested 5 components, two documents and
three features clamp to one component. -/
theorem fit_dimension_clamp_witness :
    (∀ k, (demoSvdFit k).components.length = k) ∧
    1 ≤ (init 5 (3, 5)).n_components ∧
    fit (init 5 (3, 5)) ["a", "b"] ["x", "y"] demoTfidfFit demoSvdFit =
      .ok demoFitVec ∧
    ((["a", "b"].zip ["x", "y"]).map fun p => prepare_text p.1 p.2) =
      ((["a", "b"].zip ["x", "y"]).map fun p => prepare_text p.1 p.2) ∧
    (1 : Nat) = clampComponents (init 5 (3, 5)).n_components
      ((["a", "b"].zip ["x", "y"]).map fun p => prepare_text p.1 p.2).length
      (demoTfidfFit ((["a", "b"].zip ["x", "y"]).map
        fun p => prepare_text p.1 p.2)).vocabSize ∧
    (dimensions demoFitVec = .ok 1 ∧
      1 ≤ 1 ∧
      1 ≤ (init 5 (3, 5)).n_components ∧
      1 ≤ max 1 (min ((["a", "b"].zip ["x", "y"]).map
            fun p => prepare_text p.1 p.2).length
          (demoTfidfFit ((["a", "b"].zip ["x", "y"]).map
            fun p => prepare_text p.1 p.2)).vocabSize - 1) ∧
      (max 1 (min ((["a", "b"].zip ["x", "y"]).map
            fun p => prepare_text p.1 p.2).length
          (demoTfidfFit ((["a", "b"].zip ["x", "y"]).map
            fun p => prepare_text p.1 p.2)).vocabSize - 1) <
          (init 5 (3, 5)).n_components →
        1 < (init 5 (3, 5)).n_components) ∧
      ∀ qvns qaddrs out, transform demoFitVec qvns qaddrs = .ok out →
        ∀ e ∈ out, e.length = 1) :=
  ⟨fun k => by simp [demoSvdFit], by decide, rfl, rfl, rfl,
    fit_dimension_clamp (init 5 (3, 5)) ["a", "b"] ["x", "y"]
      demoTfidfFit demoSvdFit (fun k => by simp [demoSvdFit]) (by decide)
      demoFitVec ((["a", "b"].zip ["x", "y"]).map fun p => prepare_text p.1 p.2)
      1 rfl rfl rfl⟩

/-- C5: saving a previously fitted vectorizer and loading it back yields
a vectorizer whose `transform` agrees exactly (hence within any
tolerance) with the original on every input. -/
theorem save_load_round_trip (v : AddressVectorizer) (f : FittedState)
    (hs : save v = some f) (vns addrs : List String) :
    transform (load f) vns addrs = transform v vns addrs := by
  unfold save at hs
  simp [transform, load, hs]

/-- Witness for C5 on a concrete fitted vectorizer. -/
theorem save_load_round_trip_witness :
    save demoVectorizer = some demoFittedState ∧
    transform (load demoFittedState) ["t"] ["u"] =
      transform demoVectorizer ["t"] ["u"] :=
  ⟨rfl, save_load_round_trip demoVectorizer demoFittedState rfl ["t"] ["u"]⟩

/-- C6: for a fixed fitted state, two `transform` calls on identical
inputs return identical vectors. -/
theorem transform_deterministic (v : AddressVectorizer)
    (vns1 addrs1 vns2 addrs2 : List String)
    (h1 : vns1 = vns2) (h2 : addrs1 = addrs2) :
    transform v vns1 addrs1 = transform v vns2 addrs2 := by
  rw [h1, h2]

/-- Witness for C6 on a concrete fitted vectorizer. -/
theorem transform_deterministic_witness :
    (["t"] : List String) = ["t"] ∧ (["u"] : List String) = ["u"] ∧
    transform demoVectorizer ["t"] ["u"] = transform demoVectorizer ["t"] ["u"] :=
  ⟨rfl, rfl, transform_deterministic demoVectorizer ["t"] ["u"] ["t"] ["u"] rfl rfl⟩

/-- C7: fitting on an empty corpus (zero documents) fails with the
empty-training-set error, an error kind distinct from the unfitted one. -/
theorem fit_empty_corpus (v : AddressVectorizer)
    (tfidfFit : List String → TfidfFitted) (svdFit : Nat → SVDFitted) :
    fit v [] [] tfidfFit svdFit = .error .emptyTrainingSet ∧
    VecError.emptyTrainingSet ≠ VecError.unfitted :=
  ⟨rfl, by decide⟩

/-- C8: `transform` before `fit` and `dimensions` before `fit` both fail
with the same unfitted error. -/
theorem unfitted_errors (n : Nat) (rng : Nat × Nat) (vns addrs : List String) :
    transform (init n rng) vns addrs = .error .unfitted ∧
    dimensions (init n rng) = .error .unfitted :=
  ⟨rfl, rfl⟩

end AddressVectorizer

end AddressCorrection
